import Mathlib

/-!
# Verification of the times-extension reconciliation engine

Shallow embedding of the reconciliation engine of the `times-extension`
browser extension (Tempo worklogs vs Redmine time-ledger):

* `TimeComparisonUtils.js` — the "enriched" matcher
  (`findEnrichedMatchingEntry`, `calculateDescriptionSimilarity`,
  `levenshteinDistance`);
* `SimpleTimeComparisonUtils.js` — the simple comparison pipeline
  (`compareTimeEntries`, `normalizeTempoEntries`, `normalizeRedmineEntries`,
  `compareEntries`, `findMatch`, `calculateSimilarity`,
  `addRedmineTasksToEntries`);
* `SimpleTimeComparisonManager` — the gap-filler / UI bookkeeping
  (`createEntry`, `removeEntryFromDisplay`,
  `updateOtherEntriesWithSameJiraTask`, `createUniqueRedmineTasks`,
  `createAllTimeEntries`, `exportMissingEntries`);
* `Storage.findRedmineProjectByJiraUrl` — the project-mapping resolver;
* `jira-rest.getIssue` — issue-metadata lookup result shape.

JavaScript numbers are modelled as rationals (`ℚ`), strings as Lean
`String`/`List Char`, nullable fields as `Option` (a `none` stands for
`null`/`undefined`), thrown exceptions as `Except`, and asynchronous
remote calls as explicit function parameters giving each call's outcome.
All definitions in the first half of the file; theorems follow.
-/

namespace TimesExt

/-! ## Levenshtein distance (`TimeComparisonUtils.levenshteinDistance`)

The source fills the classic dynamic-programming matrix
(`matrix[i][j]` = distance between the first `i` characters of `str2`
and the first `j` characters of `str1`; when the two characters are
equal the diagonal value is taken unchanged, otherwise
`1 + min(diagonal, left, up)`).  The recursion below is that same
recurrence read off structurally. -/

def lev : List Char → List Char → Nat
  | [], ys => ys.length
  | xs, [] => xs.length
  | x :: xs, y :: ys =>
      if x = y then lev xs ys
      else 1 + min (lev xs ys) (min (lev (x :: xs) ys) (lev xs (y :: ys)))
termination_by xs ys => xs.length + ys.length

/-- `str.toLowerCase().trim()` of the source, as a character list. -/
def normDesc (s : String) : List Char :=
  (((s.data.map Char.toLower).dropWhile Char.isWhitespace).reverse.dropWhile
      Char.isWhitespace).reverse

/-- `TimeComparisonUtils.calculateDescriptionSimilarity`: 1 when both
strings are empty (`!text` on a JS string tests for `""`), 0 when
exactly one is, 1 when the lowercased/trimmed forms coincide, else the
Levenshtein ratio `(maxLen - distance) / maxLen` (the source binds
`str1`, `str2`, `distance`, `maxLength` as local consts; they are
inlined here). -/
def calculateDescriptionSimilarity (text1 text2 : String) : ℚ :=
  if text1 = "" ∧ text2 = "" then 1
  else if text1 = "" ∨ text2 = "" then 0
  else if normDesc text1 = normDesc text2 then 1
  else if max (normDesc text1).length (normDesc text2).length = 0 then 1
  else ((max (normDesc text1).length (normDesc text2).length : ℚ) -
          (lev (normDesc text1) (normDesc text2) : ℚ)) /
        (max (normDesc text1).length (normDesc text2).length : ℚ)

/-! ## The enriched matcher (`TimeComparisonUtils.findEnrichedMatchingEntry`)

Normalized entries carry the fields the matcher reads: `hours`,
`description` and the embedded Jira code (`entry.jiraCode`, set only
when the raw record embeds Jira data — absent is `none`). -/

structure EnEntry where
  hours : ℚ
  description : String
  jiraCode : Option String
deriving DecidableEq

/-- The similarity score accumulated for one Redmine candidate inside
`findEnrichedMatchingEntry`: +0.8 when both entries carry a Jira code
and the codes are equal, +0.3 when the hours differ by less than 0.1
(else +0.1 when by less than 0.5), plus 0.2 times the description
similarity. -/
def entryScore (t r : EnEntry) : ℚ :=
  (if t.jiraCode.isSome ∧ r.jiraCode.isSome ∧ t.jiraCode = r.jiraCode
    then (0.8 : ℚ) else 0) +
  (if |t.hours - r.hours| < (0.1 : ℚ) then (0.3 : ℚ)
    else if |t.hours - r.hours| < (0.5 : ℚ) then (0.1 : ℚ) else 0) +
  calculateDescriptionSimilarity t.description r.description * (0.2 : ℚ)

/-- The `matches` array: candidates whose score reaches the 0.5
threshold, in input order (`redmineEntries.forEach` pushes in order). -/
def matchCandidates (t : EnEntry) (cands : List EnEntry) : List EnEntry :=
  cands.filter (fun r => decide ((0.5 : ℚ) ≤ entryScore t r))

/-- `matches.sort((a, b) => b.similarity - a.similarity)` (JS sort is
stable) followed by `matches[0]`: the head of the stably
descending-sorted list is the first element attaining the maximal
score, computed here directly by a left fold that replaces the current
best only on a strictly larger score. -/
def selectFirstMax (t : EnEntry) : List EnEntry → Option EnEntry
  | [] => none
  | c :: cs =>
      some (cs.foldl (fun b r => if entryScore t b < entryScore t r then r else b) c)

structure EnMatch where
  entry : EnEntry
  score : ℚ
  /-- `type === "exact"`, i.e. best similarity ≥ 0.9. -/
  isExact : Bool
deriving DecidableEq

/-- `TimeComparisonUtils.findEnrichedMatchingEntry`. -/
def findEnrichedMatchingEntry (t : EnEntry) (cands : List EnEntry) : Option EnMatch :=
  match selectFirstMax t (matchCandidates t cands) with
  | none => none
  | some best =>
      some { entry := best,
             score := entryScore t best,
             isExact := decide ((0.9 : ℚ) ≤ entryScore t best) }

/-! ## The simple comparison pipeline (`SimpleTimeComparisonUtils`) -/

/-- Normalized entry of the simple pipeline (`normalizeTempoEntries` /
`normalizeRedmineEntries` output).  `sourceId` is `tempoId` for Tempo
records and `redmineId` for Redmine records; the `source` tag is not
read by any compared logic and is omitted. -/
structure SEntry where
  date : String
  hours : ℚ
  description : String
  sourceId : Nat
  jiraTask : Option String
  redmineTask : Option String
deriving DecidableEq

/-- JavaScript truthiness of a nullable string: `null`/`undefined` and
`""` are falsy. -/
def optTruthy : Option String → Bool
  | none => false
  | some s => decide (s ≠ "")

/-- `SimpleTimeComparisonUtils.calculateSimilarity`: 1 for two empty
strings, 0 when exactly one is empty, 1 when lowercased/trimmed forms
coincide, 0.8 when either contains the other, else 0. -/
def calculateSimilarity (str1 str2 : String) : ℚ :=
  if str1 = "" ∧ str2 = "" then 1
  else if str1 = "" ∨ str2 = "" then 0
  else if normDesc str1 = normDesc str2 then 1
  else if decide (normDesc str2 <:+: normDesc str1) || decide (normDesc str1 <:+: normDesc str2)
    then (0.8 : ℚ)
  else 0

/-- `SimpleTimeComparisonUtils.findMatch`: scan the same-date Redmine
entries in order and return the first one passing any of the three
checks (equal truthy Jira tasks and hours within 0.1; equal truthy
Redmine tasks and hours within 0.1; hours within 0.1 and description
similarity above 0.8). -/
def findMatch (t : SEntry) (redmineEntries : List SEntry) : Option SEntry :=
  redmineEntries.find? (fun r =>
    (optTruthy t.jiraTask && optTruthy r.jiraTask && decide (t.jiraTask = r.jiraTask) &&
      decide (|t.hours - r.hours| < (0.1 : ℚ))) ||
    (optTruthy t.redmineTask && optTruthy r.redmineTask && decide (t.redmineTask = r.redmineTask) &&
      decide (|t.hours - r.hours| < (0.1 : ℚ))) ||
    (decide (|t.hours - r.hours| < (0.1 : ℚ)) &&
      decide ((0.8 : ℚ) < calculateSimilarity t.description r.description)))

/-- A missing entry as handed to the manager: the normalized Tempo
fields plus the Redmine issue id found by `addRedmineTasksToEntries`
(a number, `undefined` when the search found nothing). -/
structure MissingEntry where
  date : String
  hours : ℚ
  description : String
  sourceId : Nat
  jiraTask : Option String
  redmineTask : Option Nat
deriving DecidableEq

/-- `addRedmineTasksToEntries` applied to one entry: the per-key
Redmine issue search outcomes are the `resolve` parameter
(`redmineTasks[entry.jiraTask]`, `undefined` when the key is absent or
the search returned no issues). -/
def addRedmineTasksToEntry (resolve : String → Option Nat) (e : SEntry) : MissingEntry :=
  { date := e.date, hours := e.hours, description := e.description,
    sourceId := e.sourceId, jiraTask := e.jiraTask,
    redmineTask := e.jiraTask.bind resolve }

/-- The `stats` object computed by `compareEntries` (JS numbers:
counts as integers, hour sums as rationals). -/
structure SimpleStats where
  tempoTotal : ℤ
  redmineTotal : ℤ
  missing : ℤ
  matched : ℤ
  tempoHours : ℚ
  redmineHours : ℚ
  missingHours : ℚ
deriving DecidableEq

structure SimpleComparison where
  missingInRedmine : List MissingEntry
  matched : List (SEntry × SEntry)
  stats : SimpleStats
deriving DecidableEq

/-- `redmineByDate[date]`: the source groups the Redmine entries by
date with a push-in-order reduce, so the group of a date is exactly the
same-date entries in input order. -/
def entriesForDate (redmineEntries : List SEntry) (d : String) : List SEntry :=
  redmineEntries.filter (fun r => decide (r.date = d))

/-- `SimpleTimeComparisonUtils.compareEntries`: classify every Tempo
entry as matched or missing, compute the stats, and resolve Redmine
tasks for the missing entries. -/
def compareEntries (tempoEntries redmineEntries : List SEntry)
    (resolve : String → Option Nat) : SimpleComparison :=
  { missingInRedmine :=
      (tempoEntries.filter
        (fun t => (findMatch t (entriesForDate redmineEntries t.date)).isNone)).map
        (addRedmineTasksToEntry resolve),
    matched :=
      tempoEntries.filterMap
        (fun t => (findMatch t (entriesForDate redmineEntries t.date)).map (fun r => (t, r))),
    stats :=
      { tempoTotal := tempoEntries.length,
        redmineTotal := redmineEntries.length,
        missing :=
          (tempoEntries.filter
            (fun t => (findMatch t (entriesForDate redmineEntries t.date)).isNone)).length,
        matched :=
          (tempoEntries.filterMap
            (fun t => (findMatch t (entriesForDate redmineEntries t.date)).map
              (fun r => (t, r)))).length,
        tempoHours := (tempoEntries.map SEntry.hours).sum,
        redmineHours := (redmineEntries.map SEntry.hours).sum,
        missingHours :=
          ((tempoEntries.filter
            (fun t => (findMatch t (entriesForDate redmineEntries t.date)).isNone)).map
              SEntry.hours).sum } }

/-! ## Normalization and the run's control flow
(`SimpleTimeComparisonUtils.compareTimeEntries`, `normalizeTempoEntries`,
`jira-rest.getIssue`) -/

/-- A raw Tempo worklog (only the fields the normalizer reads). -/
structure Worklog where
  tempoWorklogId : Nat
  startDate : String
  timeSpentSeconds : ℚ
  description : Option String
  /-- `worklog.issue?.id` -/
  issueId : Option Nat
deriving DecidableEq

structure JiraIssue where
  id : Nat
  key : String
deriving DecidableEq

/-- The result shape of `jira-rest.getIssue`: `{success:true, issue}`
on success, `{success:false, error}` (no `issue` field) on failure. -/
inductive IssueResult where
  | ok (issue : JiraIssue)
  | err (error : String)
deriving DecidableEq

/-- The `jiraResults.forEach((result) => { jiraIssueKeys[result.issue.id]
= result.issue.key })` loop of `normalizeTempoEntries`.  On a failure
result `result.issue` is `undefined`, so reading `.id` throws a
TypeError — modelled as `Except.error`. -/
def buildJiraKeyMap : List IssueResult → Except String (List (Nat × String))
  | [] => .ok []
  | .ok issue :: rest =>
      (buildJiraKeyMap rest).map (fun m => (issue.id, issue.key) :: m)
  | .err _ :: rest => .error "TypeError: cannot read properties of undefined (reading id)"

/-- First-occurrence deduplication, the semantics of iterating a JS
`Set` built by insertion (`[...new Set(list)]`). -/
def jsSetDedup {α : Type} [DecidableEq α] : List α → List α
  | [] => []
  | x :: xs => x :: jsSetDedup (xs.filter (fun y => decide (y ≠ x)))
termination_by l => l.length
decreasing_by
  simp only [List.length_cons]
  exact Nat.lt_succ_of_le (List.length_filter_le _ _)

/-- The set of distinct Jira issue ids collected from the worklogs
before the batched `getIssue` calls. -/
def uniqueJiraIds (worklogs : List Worklog) : List Nat :=
  jsSetDedup (worklogs.filterMap Worklog.issueId)

/-- `SimpleTimeComparisonUtils.normalizeTempoEntries`.  The per-id
`JiraRestAPI.getIssue` outcomes are the `getIssue` parameter. A thrown
TypeError from the key-map loop propagates as `Except.error`. -/
def normalizeTempoEntries (worklogs : List Worklog) (getIssue : Nat → IssueResult) :
    Except String (List SEntry) :=
  (buildJiraKeyMap ((uniqueJiraIds worklogs).map getIssue)).map (fun keyMap =>
    worklogs.map (fun w =>
      { date := w.startDate,
        hours := w.timeSpentSeconds / 3600,
        description := w.description.getD "",
        sourceId := w.tempoWorklogId,
        jiraTask := w.issueId.bind (fun i => keyMap.lookup i),
        redmineTask := none }))

/-- A raw Redmine time entry (only the fields the normalizer reads). -/
structure RawRedmineEntry where
  id : Nat
  spent_on : String
  hours : ℚ
  comments : Option String
  /-- `entry.issue?.id` -/
  issueId : Option Nat
  /-- `entry.jira?.code` -/
  jiraCode : Option String
deriving DecidableEq

/-- `SimpleTimeComparisonUtils.normalizeRedmineEntries`
(`jiraTask: entry.jira?.code || null` maps an empty code to null;
`redmineTask: entry.issue?.id?.toString()`). -/
def normalizeRedmineEntries (timeEntries : List RawRedmineEntry) : List SEntry :=
  timeEntries.map (fun e =>
    { date := e.spent_on,
      hours := e.hours,
      description := e.comments.getD "",
      sourceId := e.id,
      jiraTask := match e.jiraCode with
        | some c => if c = "" then none else some c
        | none => none,
      redmineTask := e.issueId.map (fun i => toString i) })

/-- The run's outcome: `{success:true, ..., comparison}` or
`{success:false, error}`. -/
inductive RunResult where
  | success (comparison : SimpleComparison)
  | failure (error : String)
deriving DecidableEq

/-- `SimpleTimeComparisonUtils.compareTimeEntries`: the whole body runs
in a try/catch whose catch returns `{success:false, error}`; a fetch
result with `success:false` is re-thrown with a prefixed message.  The
two top-level fetches and the per-id issue lookups are parameters
giving each call's outcome. -/
def compareTimeEntries (tempoFetch : Except String (List Worklog))
    (redmineFetch : Except String (List RawRedmineEntry))
    (getIssue : Nat → IssueResult) (resolve : String → Option Nat) : RunResult :=
  match tempoFetch with
  | .error e => .failure ("Tempo API ошибка: " ++ e)
  | .ok worklogs =>
    match redmineFetch with
    | .error e => .failure ("Redmine API ошибка: " ++ e)
    | .ok timeEntries =>
      match normalizeTempoEntries worklogs getIssue with
      | .error e => .failure e
      | .ok tempoEntries =>
          .success (compareEntries tempoEntries (normalizeRedmineEntries timeEntries) resolve)

/-! ## The gap-filler bookkeeping (`SimpleTimeComparisonManager`) -/

/-- The mutable slice of `this.lastResult.comparison` the manager's
post-creation bookkeeping touches. -/
structure LiveResult where
  missingInRedmine : List MissingEntry
  stats : SimpleStats
deriving DecidableEq

/-- `SimpleTimeComparisonManager.removeEntryFromDisplay`: locate the
created entry by (date, hours, jiraTask), splice it out, and decrement
`stats.missing` and `stats.missingHours`.  (No other stats field is
touched.) -/
def removeEntryFromDisplay (res : LiveResult) (createdEntry : MissingEntry) : LiveResult :=
  match res.missingInRedmine.findIdx? (fun e =>
      decide (e.date = createdEntry.date) && decide (e.hours = createdEntry.hours) &&
      decide (e.jiraTask = createdEntry.jiraTask)) with
  | none => res
  | some index =>
      { missingInRedmine := res.missingInRedmine.eraseIdx index,
        stats := { res.stats with
          missing := res.stats.missing - 1,
          missingHours := res.stats.missingHours - createdEntry.hours } }

/-- `SimpleTimeComparisonManager.updateOtherEntriesWithSameJiraTask`:
give every missing entry that has the same Jira task and no Redmine
task the freshly created Redmine task id.  The `!jiraTask` guard
(falsy for `null`/`""`) is the emptiness test on the code string. -/
def updateOtherEntriesWithSameJiraTask (jiraTask : String) (redmineTaskId : Nat)
    (missingInRedmine : List MissingEntry) : List MissingEntry :=
  if jiraTask = "" then missingInRedmine
  else missingInRedmine.map (fun e =>
    if e.jiraTask = some jiraTask ∧ e.redmineTask = none
      then { e with redmineTask := some redmineTaskId } else e)

/-- The `uniqueJiraTasks` list of
`SimpleTimeComparisonManager.createUniqueRedmineTasks`: the distinct
Jira tasks of the missing entries that carry a (truthy) Jira task and
no Redmine task (`entry.jiraTask && !entry.redmineTask`; Redmine ids
are positive, so number truthiness is `≠ undefined`). -/
def uniqueJiraTasks (missingEntries : List MissingEntry) : List String :=
  jsSetDedup
    ((missingEntries.filter
        (fun e => optTruthy e.jiraTask && decide (e.redmineTask = none))).filterMap
      MissingEntry.jiraTask)

/-- The `taskMapping` built by `createUniqueRedmineTasks`: one
`createRedmineTaskForJira` call per unique Jira task; `create c = some
id` models a call that succeeded with new issue id `id`, `none` a call
that failed — failed codes are simply absent from the mapping. -/
def createUniqueRedmineTasksMapping (missingEntries : List MissingEntry)
    (create : String → Option Nat) : List (String × Nat) :=
  (uniqueJiraTasks missingEntries).filterMap (fun c => (create c).map (fun id => (c, id)))

/-- The payload of one `createTimeEntry` call issued by
`createAllTimeEntries` (and by the single-entry `createEntry` path). -/
structure TimeEntryPayload where
  date : String
  time : ℚ
  comment : String
  /-- `timeEntryData.task` (the id; the source stringifies it). -/
  task : Option Nat
  /-- `timeEntryData.projectId`, set only when no task was resolved:
  `linkedProject || redmineSettings.projectId || "1"`. -/
  projectId : Option String
deriving DecidableEq

/-- Task/project resolution of `createAllTimeEntries` for one entry:
the entry's own `redmineTask` if present, else the bulk `taskMapping`
entry for its Jira task, else the linked/default/`"1"` project. -/
def timeEntryPayloadFor (taskMapping : List (String × Nat)) (linkedProject : Option String)
    (defaultProjectId : String) (e : MissingEntry) : TimeEntryPayload :=
  match e.redmineTask with
  | some r =>
      { date := e.date, time := e.hours, comment := e.description,
        task := some r, projectId := none }
  | none =>
    match e.jiraTask.bind (fun c => taskMapping.lookup c) with
    | some id =>
        { date := e.date, time := e.hours, comment := e.description,
          task := some id, projectId := none }
    | none =>
        { date := e.date, time := e.hours, comment := e.description,
          task := none,
          projectId := some (linkedProject.getD
            (if defaultProjectId = "" then "1" else defaultProjectId)) }

/-- `createAllTimeEntries`: one `createTimeEntry` call per missing
entry, in list order (the calls run concurrently; each entry's payload
depends only on the entry and the bulk `taskMapping`). -/
def createAllTimeEntriesPayloads (missingEntries : List MissingEntry)
    (taskMapping : List (String × Nat)) (linkedProject : Option String)
    (defaultProjectId : String) : List TimeEntryPayload :=
  missingEntries.map (timeEntryPayloadFor taskMapping linkedProject defaultProjectId)

/-! ## The project-mapping resolver (`Storage.findRedmineProjectByJiraUrl`) -/

/-- A stored URL-to-project mapping (`jira_project_mappings` item). -/
structure ProjectMapping where
  id : String
  jiraUrl : String
  redmineProjectId : String
  description : String
deriving DecidableEq

/-- `url.toLowerCase().replace(/\/$/, "")`: lowercase, then strip one
trailing slash. -/
def normalizeMappingUrl (url : String) : List Char :=
  if (url.data.map Char.toLower).getLast? = some '/'
    then (url.data.map Char.toLower).dropLast
    else url.data.map Char.toLower

/-- `Storage.findRedmineProjectByJiraUrl`: first stored mapping whose
normalized URL contains — or is contained in — the normalized context
URL; `null` when none matches. -/
def findRedmineProjectByJiraUrl (mappings : List ProjectMapping) (jiraUrl : String) :
    Option String :=
  (mappings.find? (fun m =>
      decide (normalizeMappingUrl m.jiraUrl <:+: normalizeMappingUrl jiraUrl) ||
      decide (normalizeMappingUrl jiraUrl <:+: normalizeMappingUrl m.jiraUrl))).map
    ProjectMapping.redmineProjectId

/-! ## CSV export (`SimpleTimeComparisonManager.exportMissingEntries`) -/

/-- Decimal digits of a natural number, most significant first
(the characters a JS number-to-string conversion produces for a
non-negative integer). -/
def natDigits : Nat → List Char
  | n =>
    if h : n < 10 then [Char.ofNat (48 + n)]
    else natDigits (n / 10) ++ [Char.ofNat (48 + n % 10)]
termination_by n => n
decreasing_by
  exact Nat.div_lt_self (by omega) (by omega)

/-- Two decimal digits with a leading zero (`05`, `30`, …). -/
def pad2 (m : Nat) : List Char :=
  if m < 10 then '0' :: natDigits m else natDigits m

/-- `Number.prototype.toFixed(2)` at rational precision (ECMAScript:
the integer `n` with `n / 100` closest to the value, ties to the
larger `n`, rendered with exactly two fraction digits). -/
def toFixed2 (q : ℚ) : String :=
  if ⌊q * 100 + 1/2⌋ < 0
    then ⟨'-' :: (natDigits ((⌊q * 100 + 1/2⌋).natAbs / 100) ++
            '.' :: pad2 ((⌊q * 100 + 1/2⌋).natAbs % 100))⟩
    else ⟨natDigits ((⌊q * 100 + 1/2⌋).toNat / 100) ++
            '.' :: pad2 ((⌊q * 100 + 1/2⌋).toNat % 100)⟩

/-- `.replace(/"/g, '""')`: double every double quote. -/
def escapeQuotes : List Char → List Char
  | [] => []
  | '"' :: rest => '"' :: '"' :: escapeQuotes rest
  | c :: rest => c :: escapeQuotes rest

/-- `entry.jiraTask || ""` (and likewise `entry.redmineTask || ""`
below: absent renders as the empty string). -/
def renderOptString : Option String → String
  | none => ""
  | some s => s

/-- A missing `redmineTask` renders empty; a number renders in
decimal (array `join` stringifies it). -/
def renderOptNat : Option Nat → List Char
  | none => []
  | some n => natDigits n

/-- The five cells of one exported CSV row:
`[entry.date, entry.hours.toFixed(2), '"' + escaped description + '"',
entry.jiraTask || "", entry.redmineTask || ""]`. -/
def csvRowFields (e : MissingEntry) : List (List Char) :=
  [e.date.data,
   (toFixed2 e.hours).data,
   '"' :: (escapeQuotes e.description.data ++ ['"']),
   (renderOptString e.jiraTask).data,
   renderOptNat e.redmineTask]

/-- The header row (`["Дата","Время","Описание","Jira задача","Redmine задача"]`). -/
def csvHeaders : List (List Char) :=
  ["Дата".data, "Время".data, "Описание".data, "Jira задача".data, "Redmine задача".data]

/-- `row.join(sep)`. -/
def joinSep (sep : Char) : List (List Char) → List Char
  | [] => []
  | [f] => f
  | f :: rest => f ++ sep :: joinSep sep rest

/-- `exportMissingEntries`' CSV text:
`[headers, ...rows].map((row) => row.join(",")).join("\n")`. -/
def exportMissingEntriesCsv (missing : List MissingEntry) : List Char :=
  joinSep '\n' ((csvHeaders :: missing.map csvRowFields).map (joinSep ','))

/-- Modelled from the spec: the repository only exports CSV — it has no
CSV parser — while §6/§8 of the spec state a round-trip property
("exporting then parsing a `MissingEntry[]` preserves date, hours (2
decimal places), and description (quotes correctly unescaped)").  This
is the standard CSV reader for the quoted-field body: after an opening
quote, `""` denotes a literal quote and a single `"` closes the field;
returns the field body and the remaining input (whose length is
certified not to grow, for termination of the row reader). -/
def parseQuoted : (cs : List Char) → { p : List Char × List Char // p.2.length ≤ cs.length }
  | [] => ⟨([], []), by simp⟩
  | c :: rest =>
      if c = '"' then
        match rest with
        | [] => ⟨([], []), by simp⟩
        | c2 :: rest2 =>
            if c2 = '"' then
              ⟨('"' :: (parseQuoted rest2).val.1, (parseQuoted rest2).val.2), by
                have h := (parseQuoted rest2).property
                simp only [List.length_cons]
                omega⟩
            else ⟨([], c2 :: rest2), by simp⟩
      else
        ⟨(c :: (parseQuoted rest).val.1, (parseQuoted rest).val.2), by
          have h := (parseQuoted rest).property
          simp only [List.length_cons]
          omega⟩

/-- Modelled from the spec (see `parseQuoted`): one CSV field — quoted
when it starts with a double quote, otherwise everything up to the
next comma or newline. -/
def parseField (cs : List Char) : { p : String × List Char // p.2.length ≤ cs.length } :=
  if cs.head? = some '"' then
    ⟨(⟨(parseQuoted cs.tail).val.1⟩, (parseQuoted cs.tail).val.2), by
      have h := (parseQuoted cs.tail).property
      have ht : cs.tail.length ≤ cs.length := by
        cases cs <;> simp
      exact le_trans h ht⟩
  else
    ⟨(⟨cs.takeWhile (fun c => decide (c ≠ ',') && decide (c ≠ '\n'))⟩,
      cs.dropWhile (fun c => decide (c ≠ ',') && decide (c ≠ '\n'))),
      (List.dropWhile_sublist _).length_le⟩

/-- Modelled from the spec (see `parseQuoted`): the full CSV reader —
fields separated by commas, records by newlines (quoted fields may
contain both). -/
def parseRows (cs : List Char) : List (List String) :=
  if h1 : ((parseField cs).val.2).head? = some ',' then
    match parseRows ((parseField cs).val.2).tail with
    | [] => [[(parseField cs).val.1]]
    | row :: rs => ((parseField cs).val.1 :: row) :: rs
  else if h2 : ((parseField cs).val.2).head? = some '\n' then
    [(parseField cs).val.1] :: parseRows ((parseField cs).val.2).tail
  else [[(parseField cs).val.1]]
termination_by cs.length
decreasing_by
  · have hb := (parseField cs).property
    have hne : (parseField cs).val.2 ≠ [] := by
      intro hc
      rw [hc] at h1
      simp at h1
    have ht : ((parseField cs).val.2).tail.length = (parseField cs).val.2.length - 1 :=
      List.length_tail _
    have hpos : 0 < (parseField cs).val.2.length := List.length_pos.mpr hne
    omega
  · have hb := (parseField cs).property
    have hne : (parseField cs).val.2 ≠ [] := by
      intro hc
      rw [hc] at h2
      simp at h2
    have ht : ((parseField cs).val.2).tail.length = (parseField cs).val.2.length - 1 :=
      List.length_tail _
    have hpos : 0 < (parseField cs).val.2.length := List.length_pos.mpr hne
    omega

/-- A string safe to export as an unquoted CSV cell: no separator, no
newline, no double quote (dates `YYYY-MM-DD`, canonical issue codes
`ABC-123` and decimal ids all satisfy this). -/
def csvSafe (s : String) : Prop :=
  ∀ c ∈ s.data, c ≠ ',' ∧ c ≠ '"' ∧ c ≠ '\n'

instance (s : String) : Decidable (csvSafe s) := by
  unfold csvSafe; infer_instance

/-- The field list a CSV parse of one exported row should recover
(used to state the round-trip theorem). -/
def rowStrings (e : MissingEntry) : List String :=
  [e.date, toFixed2 e.hours, e.description,
   renderOptString e.jiraTask, ⟨renderOptNat e.redmineTask⟩]

/-- The header cells as strings. -/
def headerStrings : List String :=
  ["Дата", "Время", "Описание", "Jira задача", "Redmine задача"]

/-!
## Theorems

Helper lemmas first, then one theorem per specification claim (each
claim theorem carries the claim id in its doc comment), each with a
witness instantiation when it carries hypotheses.
-/

theorem lev_nil_left (ys : List Char) : lev [] ys = ys.length := by
  cases ys <;> simp [lev]

theorem lev_nil_right (xs : List Char) : lev xs [] = xs.length := by
  cases xs <;> simp [lev]

theorem lev_cons_cons (x y : Char) (xs ys : List Char) :
    lev (x :: xs) (y :: ys) =
      if x = y then lev xs ys
      else 1 + min (lev xs ys) (min (lev (x :: xs) ys) (lev xs (y :: ys))) := by
  simp [lev]

private theorem lev_comm_aux :
    ∀ n, ∀ xs ys : List Char, xs.length + ys.length ≤ n → lev xs ys = lev ys xs := by
  intro n
  induction n with
  | zero =>
    intro xs ys h
    have hx : xs = [] := by cases xs <;> simp_all
    have hy : ys = [] := by cases ys <;> simp_all
    subst hx; subst hy; rfl
  | succ n ih =>
    intro xs ys h
    match xs, ys with
    | [], ys => rw [lev_nil_left, lev_nil_right]
    | x :: xs, [] => rw [lev_nil_left, lev_nil_right]
    | x :: xs, y :: ys =>
      rw [lev_cons_cons, lev_cons_cons]
      have h1 : lev xs ys = lev ys xs := by
        apply ih; simp at h ⊢; omega
      have h2 : lev (x :: xs) ys = lev ys (x :: xs) := by
        apply ih; simp at h ⊢; omega
      have h3 : lev xs (y :: ys) = lev (y :: ys) xs := by
        apply ih; simp at h ⊢; omega
      by_cases hxy : x = y
      · subst hxy
        simp [h1]
      · have hyx : ¬ y = x := fun hc => hxy hc.symm
        rw [if_neg hxy, if_neg hyx, h1, h2, h3]
        omega

theorem lev_comm (xs ys : List Char) : lev xs ys = lev ys xs :=
  lev_comm_aux (xs.length + ys.length) xs ys le_rfl

private theorem lev_le_max_aux :
    ∀ n, ∀ xs ys : List Char, xs.length + ys.length ≤ n →
      lev xs ys ≤ max xs.length ys.length := by
  intro n
  induction n with
  | zero =>
    intro xs ys h
    have hx : xs = [] := by cases xs <;> simp_all
    have hy : ys = [] := by cases ys <;> simp_all
    subst hx; subst hy; simp [lev_nil_left]
  | succ n ih =>
    intro xs ys h
    match xs, ys with
    | [], ys => rw [lev_nil_left]; simp
    | x :: xs, [] => rw [lev_nil_right]; simp
    | x :: xs, y :: ys =>
      rw [lev_cons_cons]
      have h1 : lev xs ys ≤ max xs.length ys.length := by
        apply ih; simp at h ⊢; omega
      by_cases hxy : x = y
      · rw [if_pos hxy]
        simp only [List.length_cons]
        omega
      · rw [if_neg hxy]
        simp only [List.length_cons]
        omega

theorem lev_le_max (xs ys : List Char) : lev xs ys ≤ max xs.length ys.length :=
  lev_le_max_aux (xs.length + ys.length) xs ys le_rfl

theorem calculateDescriptionSimilarity_comm (a b : String) :
    calculateDescriptionSimilarity a b = calculateDescriptionSimilarity b a := by
  unfold calculateDescriptionSimilarity
  by_cases h1 : a = "" ∧ b = ""
  · rw [if_pos h1, if_pos (show b = "" ∧ a = "" from ⟨h1.2, h1.1⟩)]
  · rw [if_neg h1, if_neg (show ¬(b = "" ∧ a = "") from fun hc => h1 ⟨hc.2, hc.1⟩)]
    by_cases h2 : a = "" ∨ b = ""
    · rw [if_pos h2, if_pos (show b = "" ∨ a = "" from h2.symm)]
    · rw [if_neg h2, if_neg (show ¬(b = "" ∨ a = "") from fun hc => h2 hc.symm)]
      by_cases h3 : normDesc a = normDesc b
      · rw [if_pos h3, if_pos (show normDesc b = normDesc a from h3.symm)]
      · rw [if_neg h3, if_neg (show ¬ normDesc b = normDesc a from fun hc => h3 hc.symm)]
        rw [lev_comm (normDesc a) (normDesc b),
          Nat.max_comm (normDesc a).length (normDesc b).length,
          max_comm ((normDesc a).length : ℚ) ((normDesc b).length : ℚ)]

theorem calculateDescriptionSimilarity_mem_unit (a b : String) :
    0 ≤ calculateDescriptionSimilarity a b ∧ calculateDescriptionSimilarity a b ≤ 1 := by
  unfold calculateDescriptionSimilarity
  by_cases h1 : a = "" ∧ b = ""
  · rw [if_pos h1]; norm_num
  · rw [if_neg h1]
    by_cases h2 : a = "" ∨ b = ""
    · rw [if_pos h2]; norm_num
    · rw [if_neg h2]
      by_cases h3 : normDesc a = normDesc b
      · rw [if_pos h3]; norm_num
      · rw [if_neg h3]
        by_cases h4 : max (normDesc a).length (normDesc b).length = 0
        · rw [if_pos h4]; norm_num
        · rw [if_neg h4]
          have hd : lev (normDesc a) (normDesc b) ≤
              max (normDesc a).length (normDesc b).length := lev_le_max _ _
          have hdq : (lev (normDesc a) (normDesc b) : ℚ) ≤
              (max (normDesc a).length (normDesc b).length : ℚ) := by exact_mod_cast hd
          have hpos : (0 : ℚ) < (max (normDesc a).length (normDesc b).length : ℚ) := by
            exact_mod_cast Nat.pos_of_ne_zero h4
          have hnn : (0 : ℚ) ≤ (lev (normDesc a) (normDesc b) : ℚ) := by positivity
          constructor
          · apply div_nonneg _ (le_of_lt hpos)
            linarith
          · rw [div_le_one hpos]
            linarith

/-- C10: the description-similarity function is symmetric and its
result always lies in the closed interval [0, 1]. -/
theorem descriptionSimilarity_symm_and_bounded (a b : String) :
    calculateDescriptionSimilarity a b = calculateDescriptionSimilarity b a ∧
    0 ≤ calculateDescriptionSimilarity a b ∧ calculateDescriptionSimilarity a b ≤ 1 :=
  ⟨calculateDescriptionSimilarity_comm a b, calculateDescriptionSimilarity_mem_unit a b⟩

private theorem foldl_best_spec (t : EnEntry) (cs : List EnEntry) (c : EnEntry) :
    entryScore t c ≤
        entryScore t (cs.foldl (fun b r => if entryScore t b < entryScore t r then r else b) c) ∧
    (∀ x ∈ cs, entryScore t x ≤
        entryScore t (cs.foldl (fun b r => if entryScore t b < entryScore t r then r else b) c)) ∧
    ((cs.foldl (fun b r => if entryScore t b < entryScore t r then r else b) c) = c ∨
      ∃ l1 l2, cs = l1 ++
          (cs.foldl (fun b r => if entryScore t b < entryScore t r then r else b) c) :: l2 ∧
        entryScore t c <
          entryScore t (cs.foldl (fun b r => if entryScore t b < entryScore t r then r else b) c) ∧
        ∀ x ∈ l1, entryScore t x <
          entryScore t (cs.foldl (fun b r => if entryScore t b < entryScore t r then r else b) c)) := by
  induction cs generalizing c with
  | nil => exact ⟨le_rfl, by simp, Or.inl rfl⟩
  | cons x cs ih =>
    simp only [List.foldl_cons]
    by_cases hcx : entryScore t c < entryScore t x
    · rw [if_pos hcx]
      obtain ⟨h1, h2, h3⟩ := ih x
      refine ⟨le_of_lt (lt_of_lt_of_le hcx h1), ?_, ?_⟩
      · intro y hy
        rcases List.mem_cons.mp hy with rfl | hy
        · exact h1
        · exact h2 y hy
      · rcases h3 with heq | ⟨l1, l2, hdec, hlt, hall⟩
        · refine Or.inr ⟨[], cs, ?_, ?_, by simp⟩
          · rw [heq]; simp
          · rw [heq]; exact hcx
        · refine Or.inr ⟨x :: l1, l2, ?_, lt_trans hcx hlt, ?_⟩
          · conv_lhs => rw [hdec]
            simp
          · intro y hy
            rcases List.mem_cons.mp hy with rfl | hy
            · exact hlt
            · exact hall y hy
    · rw [if_neg hcx]
      obtain ⟨h1, h2, h3⟩ := ih c
      push_neg at hcx
      refine ⟨h1, ?_, ?_⟩
      · intro y hy
        rcases List.mem_cons.mp hy with rfl | hy
        · exact le_trans hcx h1
        · exact h2 y hy
      · rcases h3 with heq | ⟨l1, l2, hdec, hlt, hall⟩
        · exact Or.inl heq
        · refine Or.inr ⟨x :: l1, l2, ?_, hlt, ?_⟩
          · conv_lhs => rw [hdec]
            simp
          · intro y hy
            rcases List.mem_cons.mp hy with rfl | hy
            · exact lt_of_le_of_lt hcx hlt
            · exact hall y hy

private theorem selectFirstMax_none_iff (t : EnEntry) (l : List EnEntry) :
    selectFirstMax t l = none ↔ l = [] := by
  cases l <;> simp [selectFirstMax]

private theorem selectFirstMax_spec (t : EnEntry) (l : List EnEntry) (r : EnEntry)
    (h : selectFirstMax t l = some r) :
    (∀ x ∈ l, entryScore t x ≤ entryScore t r) ∧
    ∃ l1 l2, l = l1 ++ r :: l2 ∧ ∀ x ∈ l1, entryScore t x < entryScore t r := by
  match l with
  | [] => simp [selectFirstMax] at h
  | c :: cs =>
    simp only [selectFirstMax, Option.some_inj] at h
    obtain ⟨h1, h2, h3⟩ := foldl_best_spec t cs c
    rw [h] at h1 h2 h3
    constructor
    · intro x hx
      rcases List.mem_cons.mp hx with rfl | hx
      · exact h1
      · exact h2 x hx
    · rcases h3 with heq | ⟨l1, l2, hdec, hlt, hall⟩
      · exact ⟨[], cs, by rw [heq]; simp, by simp⟩
      · refine ⟨c :: l1, l2, by rw [hdec]; simp, ?_⟩
        intro x hx
        rcases List.mem_cons.mp hx with rfl | hx
        · exact hlt
        · exact hall x hx

private theorem filter_decomp {α : Type} (p : α → Bool) :
    ∀ (l : List α) (r : α) (l1 l2 : List α), l.filter p = l1 ++ r :: l2 →
      ∃ a1 a2, l = a1 ++ r :: a2 ∧ a1.filter p = l1 := by
  intro l
  induction l with
  | nil => intro r l1 l2 h; simp at h
  | cons x xs ih =>
    intro r l1 l2 h
    by_cases hx : p x
    · rw [List.filter_cons_of_pos hx] at h
      match l1, h with
      | [], h =>
        have hxr : x = r := (List.cons_eq_cons.mp h).1
        exact ⟨[], xs, by rw [hxr]; simp, by simp⟩
      | y :: l1x, h =>
        obtain ⟨hxy, htl⟩ := List.cons_eq_cons.mp h
        obtain ⟨a1, a2, hdec, hfil⟩ := ih r l1x l2 htl
        refine ⟨x :: a1, a2, by rw [hdec]; simp, ?_⟩
        rw [List.filter_cons_of_pos hx, hfil, hxy]
    · rw [List.filter_cons_of_neg hx] at h
      obtain ⟨a1, a2, hdec, hfil⟩ := ih r l1 l2 h
      exact ⟨x :: a1, a2, by rw [hdec]; simp, by rw [List.filter_cons_of_neg hx, hfil]⟩

/-- C1: for every worklog record and every list of same-date ledger
candidates, `findEnrichedMatchingEntry` scores each candidate by
`entryScore` (+0.8 for equal non-null issue codes, +0.3 for hours
within 0.1 else +0.1 within 0.5, +0.2 × description similarity),
discards candidates scoring below 0.5, returns the highest-scoring
remaining candidate with ties broken by input order (first seen wins),
and reports no match exactly when every candidate scores below 0.5. -/
theorem findEnrichedMatchingEntry_spec (t : EnEntry) (cands : List EnEntry) :
    (findEnrichedMatchingEntry t cands = none ↔
      ∀ c ∈ cands, entryScore t c < (0.5 : ℚ)) ∧
    (∀ m, findEnrichedMatchingEntry t cands = some m →
      m.score = entryScore t m.entry ∧
      (0.5 : ℚ) ≤ entryScore t m.entry ∧
      (∀ c ∈ cands, entryScore t c ≤ entryScore t m.entry) ∧
      ∃ l1 l2, cands = l1 ++ m.entry :: l2 ∧
        ∀ c ∈ l1, entryScore t c < entryScore t m.entry) := by
  constructor
  · unfold findEnrichedMatchingEntry
    constructor
    · intro h c hc
      by_contra hge
      push_neg at hge
      have hmem : c ∈ matchCandidates t cands := by
        unfold matchCandidates
        exact List.mem_filter.mpr ⟨hc, by simpa using hge⟩
      rcases hsel : selectFirstMax t (matchCandidates t cands) with _ | best
      · rw [selectFirstMax_none_iff] at hsel
        rw [hsel] at hmem
        simp at hmem
      · rw [hsel] at h
        simp at h
    · intro hall
      have hemp : matchCandidates t cands = [] := by
        unfold matchCandidates
        apply List.filter_eq_nil.mpr
        intro c hc
        simpa using not_le.mpr (hall c hc)
      rw [hemp]
      rfl
  · intro m hm
    unfold findEnrichedMatchingEntry at hm
    rcases hsel : selectFirstMax t (matchCandidates t cands) with _ | best
    · rw [hsel] at hm; simp at hm
    · rw [hsel] at hm
      simp only [Option.some_inj] at hm
      obtain ⟨hbound, l1f, l2f, hdecf, hstrictf⟩ := selectFirstMax_spec t _ best hsel
      have hbm : m.entry = best := by rw [← hm]
      have hbest_mem : best ∈ matchCandidates t cands := by
        rw [hdecf]; exact List.mem_append.mpr (Or.inr (List.mem_cons_self _ _))
      have hbest_half : (0.5 : ℚ) ≤ entryScore t best := by
        have := (List.mem_filter.mp hbest_mem).2
        simpa using this
      have hglobal : ∀ c ∈ cands, entryScore t c ≤ entryScore t best := by
        intro c hc
        by_cases hcp : (0.5 : ℚ) ≤ entryScore t c
        · exact hbound c (List.mem_filter.mpr ⟨hc, by simpa using hcp⟩)
        · push_neg at hcp
          exact le_of_lt (lt_of_lt_of_le hcp hbest_half)
      obtain ⟨a1, a2, hdec, hfil⟩ :=
        filter_decomp (fun r => decide ((0.5 : ℚ) ≤ entryScore t r)) cands best l1f l2f hdecf
      refine ⟨by rw [← hm], by rw [hbm]; exact hbest_half, by rw [hbm]; exact hglobal, ?_⟩
      refine ⟨a1, a2, by rw [hbm]; exact hdec, ?_⟩
      intro c hc
      rw [hbm]
      by_cases hcp : (0.5 : ℚ) ≤ entryScore t c
      · have : c ∈ l1f := by
          rw [← hfil]
          exact List.mem_filter.mpr ⟨hc, by simpa using hcp⟩
        exact hstrictf c this
      · push_neg at hcp
        exact lt_of_lt_of_le hcp hbest_half

/-- Witness for C1: the spec's §8 example — candidate with matching
issue code and equal hours wins over the hours-only candidate. -/
theorem findEnrichedMatchingEntry_spec_witness :
    (0.5 : ℚ) ≤ entryScore ⟨2, "Fix bug", some "AB-1"⟩ ⟨2, "Fix bug", some "AB-1"⟩ ∧
    ∀ c ∈ [(⟨2, "Fix bug", some "AB-1"⟩ : EnEntry), ⟨(2.05 : ℚ), "", none⟩],
      entryScore ⟨2, "Fix bug", some "AB-1"⟩ c ≤
        entryScore ⟨2, "Fix bug", some "AB-1"⟩ ⟨2, "Fix bug", some "AB-1"⟩ := by
  have hsim1 : calculateDescriptionSimilarity "Fix bug" "Fix bug" = 1 := by
    unfold calculateDescriptionSimilarity
    rw [if_neg (by simp), if_neg (by simp), if_pos rfl]
  have hsim2 : calculateDescriptionSimilarity "Fix bug" "" = 0 := by
    unfold calculateDescriptionSimilarity
    rw [if_neg (by simp), if_pos (Or.inr rfl)]
  have hs1 : entryScore ⟨2, "Fix bug", some "AB-1"⟩ ⟨2, "Fix bug", some "AB-1"⟩ = 1.3 := by
    show (if (some "AB-1" : Option String).isSome ∧ (some "AB-1" : Option String).isSome ∧
          (some "AB-1" : Option String) = some "AB-1" then (0.8 : ℚ) else 0) +
        (if |(2 : ℚ) - 2| < (0.1 : ℚ) then (0.3 : ℚ)
          else if |(2 : ℚ) - 2| < (0.5 : ℚ) then (0.1 : ℚ) else 0) +
        calculateDescriptionSimilarity "Fix bug" "Fix bug" * (0.2 : ℚ) = 1.3
    rw [if_pos ⟨rfl, rfl, rfl⟩, if_pos (by norm_num), hsim1]
    norm_num
  have hs2 : entryScore ⟨2, "Fix bug", some "AB-1"⟩ ⟨(2.05 : ℚ), "", none⟩ = 0.3 := by
    show (if (some "AB-1" : Option String).isSome ∧ (none : Option String).isSome ∧
          (some "AB-1" : Option String) = none then (0.8 : ℚ) else 0) +
        (if |(2 : ℚ) - 2.05| < (0.1 : ℚ) then (0.3 : ℚ)
          else if |(2 : ℚ) - 2.05| < (0.5 : ℚ) then (0.1 : ℚ) else 0) +
        calculateDescriptionSimilarity "Fix bug" "" * (0.2 : ℚ) = 0.3
    have habs : |(2 : ℚ) - 2.05| < (0.1 : ℚ) := by
      rw [show (2 : ℚ) - 2.05 = -(1/20) by norm_num, abs_neg,
        abs_of_nonneg (by norm_num : (0 : ℚ) ≤ 1/20)]
      norm_num
    rw [if_neg (by simp), if_pos habs, hsim2]
    norm_num
  have hmc : matchCandidates ⟨2, "Fix bug", some "AB-1"⟩
      [⟨2, "Fix bug", some "AB-1"⟩, ⟨(2.05 : ℚ), "", none⟩] =
      [⟨2, "Fix bug", some "AB-1"⟩] := by
    unfold matchCandidates
    rw [List.filter_cons, List.filter_cons, List.filter_nil]
    rw [show decide ((0.5 : ℚ) ≤ entryScore ⟨2, "Fix bug", some "AB-1"⟩
        ⟨2, "Fix bug", some "AB-1"⟩) = true from by rw [hs1]; exact decide_eq_true (by norm_num)]
    rw [show decide ((0.5 : ℚ) ≤ entryScore ⟨2, "Fix bug", some "AB-1"⟩
        ⟨(2.05 : ℚ), "", none⟩) = false from by rw [hs2]; exact decide_eq_false (by norm_num)]
    simp
  have hfind : findEnrichedMatchingEntry ⟨2, "Fix bug", some "AB-1"⟩
      [⟨2, "Fix bug", some "AB-1"⟩, ⟨(2.05 : ℚ), "", none⟩] =
      some ⟨⟨2, "Fix bug", some "AB-1"⟩, (1.3 : ℚ), true⟩ := by
    unfold findEnrichedMatchingEntry
    rw [hmc]
    simp only [selectFirstMax, List.foldl_nil]
    rw [hs1]
    rw [show decide ((0.9 : ℚ) ≤ (1.3 : ℚ)) = true from decide_eq_true (by norm_num)]
  have h := (findEnrichedMatchingEntry_spec ⟨2, "Fix bug", some "AB-1"⟩
      [⟨2, "Fix bug", some "AB-1"⟩, ⟨(2.05 : ℚ), "", none⟩]).2
      ⟨⟨2, "Fix bug", some "AB-1"⟩, (1.3 : ℚ), true⟩ hfind
  exact ⟨h.2.1, h.2.2.1⟩

private theorem filterMap_pair_map_fst {α β : Type} (f : α → Option β) (l : List α) :
    (l.filterMap (fun a => (f a).map (fun b => (a, b)))).map Prod.fst =
      l.filter (fun a => (f a).isSome) := by
  induction l with
  | nil => rfl
  | cons x xs ih =>
    cases hfx : f x with
    | none => simp [List.filterMap_cons, List.filter_cons, hfx, ih]
    | some b => simp [List.filterMap_cons, List.filter_cons, hfx, ih]

/-- C9: `compareEntries` classifies every Tempo entry into exactly one
of the matched and missing lists, `stats.missing`/`stats.matched` are
those lists' lengths, they sum to `stats.tempoTotal` (the number of
Tempo entries), and `stats.missingHours` is the hour sum of the
missing list. -/
theorem compareEntries_partition_and_stats (tempo redmine : List SEntry)
    (resolve : String → Option Nat) :
    (compareEntries tempo redmine resolve).stats.matched =
        ((compareEntries tempo redmine resolve).matched.length : ℤ) ∧
    (compareEntries tempo redmine resolve).stats.missing =
        ((compareEntries tempo redmine resolve).missingInRedmine.length : ℤ) ∧
    (compareEntries tempo redmine resolve).stats.missing +
        (compareEntries tempo redmine resolve).stats.matched =
        (compareEntries tempo redmine resolve).stats.tempoTotal ∧
    (compareEntries tempo redmine resolve).stats.tempoTotal = (tempo.length : ℤ) ∧
    (compareEntries tempo redmine resolve).stats.missingHours =
        ((compareEntries tempo redmine resolve).missingInRedmine.map
          MissingEntry.hours).sum ∧
    ((compareEntries tempo redmine resolve).matched.map Prod.fst ++
        tempo.filter (fun t => (findMatch t (entriesForDate redmine t.date)).isNone)).Perm
      tempo ∧
    (compareEntries tempo redmine resolve).missingInRedmine =
      (tempo.filter (fun t => (findMatch t (entriesForDate redmine t.date)).isNone)).map
        (addRedmineTasksToEntry resolve) := by
  have hfun : (fun t : SEntry => !((findMatch t (entriesForDate redmine t.date)).isSome)) =
      (fun t : SEntry => (findMatch t (entriesForDate redmine t.date)).isNone) :=
    funext fun t => by cases findMatch t (entriesForDate redmine t.date) <;> rfl
  have hperm : ((compareEntries tempo redmine resolve).matched.map Prod.fst ++
      tempo.filter (fun t => (findMatch t (entriesForDate redmine t.date)).isNone)).Perm
      tempo := by
    simp only [compareEntries]
    rw [filterMap_pair_map_fst (fun t => findMatch t (entriesForDate redmine t.date)) tempo]
    rw [← hfun]
    exact List.filter_append_perm _ tempo
  refine ⟨rfl, by simp [compareEntries], ?_, rfl, ?_, hperm, rfl⟩
  · have hlen := hperm.length_eq
    rw [List.length_append, List.length_map] at hlen
    simp only [compareEntries] at hlen ⊢
    push_cast
    omega
  · simp only [compareEntries, List.map_map]
    rfl

/-- C2 (code bug): after the single-entry creation path succeeds,
`removeEntryFromDisplay` decrements `stats.missing` by 1 and
`stats.missingHours` by the entry's hours and removes the entry from
`missingInRedmine` — but it leaves `stats.redmineTotal` and
`stats.redmineHours` unchanged, although the claim (and the spec's §3
invariant, implemented by the bulk path `updateUIAfterBulkCreation`)
requires them to increase by 1 and by the entry's hours.  Here: one
missing 3-hour entry, stats `{tempoTotal 6, redmineTotal 5, missing 1,
matched 5, tempoHours 13, redmineHours 10, missingHours 3}`. -/
theorem removeEntryFromDisplay_keeps_redmine_stats :
    (removeEntryFromDisplay
        ⟨[⟨"2024-01-05", 3, "Fix bug", 1, none, none⟩], ⟨6, 5, 1, 5, 13, 10, 3⟩⟩
        ⟨"2024-01-05", 3, "Fix bug", 1, none, none⟩).missingInRedmine = [] ∧
    (removeEntryFromDisplay
        ⟨[⟨"2024-01-05", 3, "Fix bug", 1, none, none⟩], ⟨6, 5, 1, 5, 13, 10, 3⟩⟩
        ⟨"2024-01-05", 3, "Fix bug", 1, none, none⟩).stats.missing = 0 ∧
    (removeEntryFromDisplay
        ⟨[⟨"2024-01-05", 3, "Fix bug", 1, none, none⟩], ⟨6, 5, 1, 5, 13, 10, 3⟩⟩
        ⟨"2024-01-05", 3, "Fix bug", 1, none, none⟩).stats.missingHours = 0 ∧
    (removeEntryFromDisplay
        ⟨[⟨"2024-01-05", 3, "Fix bug", 1, none, none⟩], ⟨6, 5, 1, 5, 13, 10, 3⟩⟩
        ⟨"2024-01-05", 3, "Fix bug", 1, none, none⟩).stats.redmineTotal = 5 ∧
    (removeEntryFromDisplay
        ⟨[⟨"2024-01-05", 3, "Fix bug", 1, none, none⟩], ⟨6, 5, 1, 5, 13, 10, 3⟩⟩
        ⟨"2024-01-05", 3, "Fix bug", 1, none, none⟩).stats.redmineHours = 10 := by
  have hfound : ([⟨"2024-01-05", 3, "Fix bug", 1, none, none⟩] :
      List MissingEntry).findIdx? (fun e =>
        decide (e.date = "2024-01-05") && decide (e.hours = (3 : ℚ)) &&
        decide (e.jiraTask = none)) = some 0 := by
    rw [List.findIdx?_cons]
    rw [show (decide (("2024-01-05" : String) = "2024-01-05") && decide ((3 : ℚ) = 3) &&
        decide ((none : Option String) = none)) = true from by
      rw [decide_eq_true (rfl : (3 : ℚ) = 3)]; decide]
    rfl
  unfold removeEntryFromDisplay
  rw [hfound]
  refine ⟨rfl, rfl, by norm_num, rfl, rfl⟩

/-- C5: when a single-entry creation creates a brand-new Redmine issue
for Jira code `jiraTask`, `updateOtherEntriesWithSameJiraTask` sets
that Redmine id on every still-pending missing entry carrying the same
code and no Redmine task, and changes nothing else: entries with a
different code (or with a task already set) are untouched, and every
other field of the updated entries is preserved. -/
theorem updateOtherEntries_back_propagation (jiraTask : String) (redmineTaskId : Nat)
    (entries : List MissingEntry) (hcode : jiraTask ≠ "") :
    List.Forall₂ (fun e e2 : MissingEntry =>
        (e.jiraTask = some jiraTask ∧ e.redmineTask = none →
          e2 = { e with redmineTask := some redmineTaskId }) ∧
        (e.jiraTask ≠ some jiraTask → e2 = e) ∧
        (e.redmineTask ≠ none → e2 = e) ∧
        (e2.date = e.date ∧ e2.hours = e.hours ∧ e2.description = e.description ∧
          e2.sourceId = e.sourceId ∧ e2.jiraTask = e.jiraTask))
      entries (updateOtherEntriesWithSameJiraTask jiraTask redmineTaskId entries) := by
  unfold updateOtherEntriesWithSameJiraTask
  rw [if_neg hcode]
  induction entries with
  | nil => simp
  | cons x xs ih =>
    rw [List.map_cons]
    refine List.Forall₂.cons ?_ ih
    by_cases hx : x.jiraTask = some jiraTask ∧ x.redmineTask = none
    · rw [if_pos hx]
      exact ⟨fun _ => rfl, fun hc => absurd hx.1 hc, fun hc => absurd hx.2 hc,
        rfl, rfl, rfl, rfl, rfl⟩
    · rw [if_neg hx]
      exact ⟨fun hc => absurd hc hx, fun _ => rfl, fun _ => rfl, rfl, rfl, rfl, rfl, rfl⟩

/-- Witness for C5: two pending entries sharing code `AB-9` (one with
a task already set), one entry with a different code. -/
theorem updateOtherEntries_back_propagation_witness :
    List.Forall₂ (fun e e2 : MissingEntry =>
        (e.jiraTask = some "AB-9" ∧ e.redmineTask = none →
          e2 = { e with redmineTask := some (77 : Nat) }) ∧
        (e.jiraTask ≠ some "AB-9" → e2 = e) ∧
        (e.redmineTask ≠ none → e2 = e) ∧
        (e2.date = e.date ∧ e2.hours = e.hours ∧ e2.description = e.description ∧
          e2.sourceId = e.sourceId ∧ e2.jiraTask = e.jiraTask))
      [⟨"2024-01-05", 2, "a", 1, some "AB-9", none⟩,
       ⟨"2024-01-06", 3, "b", 2, some "AB-9", some 50⟩,
       ⟨"2024-01-07", 4, "c", 3, some "CD-1", none⟩]
      (updateOtherEntriesWithSameJiraTask "AB-9" 77
        [⟨"2024-01-05", 2, "a", 1, some "AB-9", none⟩,
         ⟨"2024-01-06", 3, "b", 2, some "AB-9", some 50⟩,
         ⟨"2024-01-07", 4, "c", 3, some "CD-1", none⟩]) :=
  updateOtherEntries_back_propagation "AB-9" 77
    [⟨"2024-01-05", 2, "a", 1, some "AB-9", none⟩,
     ⟨"2024-01-06", 3, "b", 2, some "AB-9", some 50⟩,
     ⟨"2024-01-07", 4, "c", 3, some "CD-1", none⟩] (by decide)

private theorem jsSetDedup_mem_aux {α : Type} [DecidableEq α] :
    ∀ n (l : List α), l.length ≤ n → ∀ y, (y ∈ jsSetDedup l ↔ y ∈ l) := by
  intro n
  induction n with
  | zero =>
    intro l h y
    have hl : l = [] := by cases l <;> simp_all
    subst hl
    rw [jsSetDedup]
  | succ n ih =>
    intro l h y
    match l with
    | [] => rw [jsSetDedup]
    | x :: xs =>
      rw [jsSetDedup]
      have hflen : (xs.filter (fun z => decide (z ≠ x))).length ≤ n := by
        have h1 := List.length_filter_le (fun z => decide (z ≠ x)) xs
        simp only [List.length_cons] at h
        omega
      rw [List.mem_cons, ih _ hflen y, List.mem_filter, List.mem_cons]
      by_cases hyx : y = x
      · simp [hyx]
      · simp [hyx]

private theorem jsSetDedup_mem {α : Type} [DecidableEq α] (l : List α) (y : α) :
    y ∈ jsSetDedup l ↔ y ∈ l :=
  jsSetDedup_mem_aux l.length l le_rfl y

private theorem jsSetDedup_nodup_aux {α : Type} [DecidableEq α] :
    ∀ n (l : List α), l.length ≤ n → (jsSetDedup l).Nodup := by
  intro n
  induction n with
  | zero =>
    intro l h
    have hl : l = [] := by cases l <;> simp_all
    subst hl
    rw [jsSetDedup]
    exact List.nodup_nil
  | succ n ih =>
    intro l h
    match l with
    | [] => rw [jsSetDedup]; exact List.nodup_nil
    | x :: xs =>
      rw [jsSetDedup]
      have hflen : (xs.filter (fun z => decide (z ≠ x))).length ≤ n := by
        have h1 := List.length_filter_le (fun z => decide (z ≠ x)) xs
        simp only [List.length_cons] at h
        omega
      refine List.nodup_cons.mpr ⟨?_, ih _ hflen⟩
      intro hmem
      rw [jsSetDedup_mem] at hmem
      have := (List.mem_filter.mp hmem).2
      simp at this

private theorem jsSetDedup_nodup {α : Type} [DecidableEq α] (l : List α) :
    (jsSetDedup l).Nodup :=
  jsSetDedup_nodup_aux l.length l le_rfl

private theorem lookup_filterMap_create_none (create : String → Option Nat) :
    ∀ (u : List String) (code : String), code ∉ u →
      (u.filterMap (fun c => (create c).map (fun id => (c, id)))).lookup code = none := by
  intro u
  induction u with
  | nil => intro code _; rfl
  | cons c cs ih =>
    intro code hmem
    have hcode_cs : code ∉ cs := fun hc => hmem (List.mem_cons_of_mem _ hc)
    have hne : (code == c) = false := by
      have : code ≠ c := fun hc => hmem (by rw [hc]; exact List.mem_cons_self _ _)
      simpa using this
    cases hc : create c with
    | none =>
      rw [List.filterMap_cons_none (by rw [hc]; rfl)]
      exact ih code hcode_cs
    | some id =>
      rw [List.filterMap_cons_some (by rw [hc]; rfl)]
      rw [List.lookup_cons, hne]
      exact ih code hcode_cs

private theorem lookup_filterMap_create (create : String → Option Nat) :
    ∀ (u : List String) (code : String), u.Nodup → code ∈ u →
      (u.filterMap (fun c => (create c).map (fun id => (c, id)))).lookup code = create code := by
  intro u
  induction u with
  | nil => intro code _ hmem; simp at hmem
  | cons c cs ih =>
    intro code hnd hmem
    obtain ⟨hnotin, hndtl⟩ := List.nodup_cons.mp hnd
    rcases List.mem_cons.mp hmem with rfl | hmem2
    · cases hc : create code with
      | none =>
        rw [List.filterMap_cons_none (by rw [hc]; rfl)]
        rw [lookup_filterMap_create_none create cs code hnotin]
      | some id =>
        rw [List.filterMap_cons_some (by rw [hc]; rfl)]
        rw [List.lookup_cons]
        rw [show (code == code) = true from by simp]
    · have hne : (code == c) = false := by
        have : code ≠ c := fun hcc => hnotin (by rw [← hcc]; exact hmem2)
        simpa using this
      cases hc : create c with
      | none =>
        rw [List.filterMap_cons_none (by rw [hc]; rfl)]
        exact ih code hndtl hmem2
      | some id =>
        rw [List.filterMap_cons_some (by rw [hc]; rfl)]
        rw [List.lookup_cons, hne]
        exact ih code hndtl hmem2

private theorem mem_uniqueJiraTasks (missingEntries : List MissingEntry) (code : String) :
    code ∈ uniqueJiraTasks missingEntries ↔
      ∃ e ∈ missingEntries, e.jiraTask = some code ∧ code ≠ "" ∧ e.redmineTask = none := by
  unfold uniqueJiraTasks
  rw [jsSetDedup_mem]
  constructor
  · intro h
    obtain ⟨e, hef, hcode⟩ := List.mem_filterMap.mp h
    obtain ⟨hemem, hpred⟩ := List.mem_filter.mp hef
    simp only [Bool.and_eq_true, decide_eq_true_eq] at hpred
    refine ⟨e, hemem, hcode, ?_, hpred.2⟩
    have := hpred.1
    rw [hcode] at this
    simpa [optTruthy] using this
  · intro ⟨e, hemem, hcode, hne, hrt⟩
    refine List.mem_filterMap.mpr ⟨e, List.mem_filter.mpr ⟨hemem, ?_⟩, hcode⟩
    simp only [Bool.and_eq_true, decide_eq_true_eq]
    exact ⟨by rw [hcode]; simpa [optTruthy] using hne, hrt⟩

/-- C3: the bulk creation path issues exactly one Redmine-issue
creation per distinct Jira code among missing entries that carry a
code and have no resolved Redmine task (`uniqueJiraTasks` has no
duplicates and contains exactly those codes; already-resolved entries
cause no creation), and every time entry subsequently created for an
entry with such a code references the single Redmine issue id created
for that code (entries with an already-resolved task keep their own
id). -/
theorem createAll_unique_issue_creation (missingEntries : List MissingEntry)
    (create : String → Option Nat) (linkedProject : Option String)
    (defaultProjectId : String) :
    (uniqueJiraTasks missingEntries).Nodup ∧
    (∀ code, code ∈ uniqueJiraTasks missingEntries ↔
      ∃ e ∈ missingEntries, e.jiraTask = some code ∧ code ≠ "" ∧ e.redmineTask = none) ∧
    (∀ e ∈ missingEntries, ∀ code id, e.jiraTask = some code → e.redmineTask = none →
      code ≠ "" → create code = some id →
      (timeEntryPayloadFor (createUniqueRedmineTasksMapping missingEntries create)
          linkedProject defaultProjectId e).task = some id) ∧
    (∀ e ∈ missingEntries, ∀ r, e.redmineTask = some r →
      (timeEntryPayloadFor (createUniqueRedmineTasksMapping missingEntries create)
          linkedProject defaultProjectId e).task = some r) := by
  refine ⟨jsSetDedup_nodup _, mem_uniqueJiraTasks missingEntries, ?_, ?_⟩
  · intro e hemem code id hcode hrt hne hcreate
    have hmem : code ∈ uniqueJiraTasks missingEntries :=
      (mem_uniqueJiraTasks missingEntries code).mpr ⟨e, hemem, hcode, hne, hrt⟩
    have hlook : (createUniqueRedmineTasksMapping missingEntries create).lookup code =
        create code :=
      lookup_filterMap_create create (uniqueJiraTasks missingEntries) code
        (jsSetDedup_nodup _) hmem
    unfold timeEntryPayloadFor
    rw [hrt, hcode]
    simp only [Option.some_bind]
    rw [hlook, hcreate]
  · intro e hemem r hr
    unfold timeEntryPayloadFor
    rw [hr]

/-- Witness for C3: three missing entries sharing code `AB-9`, one
issue-creation outcome `AB-9 ↦ 101`; the dedup set is exactly
`["AB-9"]` and all three payloads reference id 101. -/
theorem createAll_unique_issue_creation_witness :
    uniqueJiraTasks
      [⟨"2024-01-05", 2, "a", 1, some "AB-9", none⟩,
       ⟨"2024-01-06", 3, "b", 2, some "AB-9", none⟩,
       ⟨"2024-01-07", 4, "c", 3, some "AB-9", none⟩] = ["AB-9"] ∧
    ((([⟨"2024-01-05", 2, "a", 1, some "AB-9", none⟩,
        ⟨"2024-01-06", 3, "b", 2, some "AB-9", none⟩,
        ⟨"2024-01-07", 4, "c", 3, some "AB-9", none⟩] : List MissingEntry).map
      (timeEntryPayloadFor
        (createUniqueRedmineTasksMapping
          [⟨"2024-01-05", 2, "a", 1, some "AB-9", none⟩,
           ⟨"2024-01-06", 3, "b", 2, some "AB-9", none⟩,
           ⟨"2024-01-07", 4, "c", 3, some "AB-9", none⟩]
          (fun c => if c = "AB-9" then some 101 else none))
        none "proj")).map TimeEntryPayload.task) = [some 101, some 101, some 101] := by
  have h := createAll_unique_issue_creation
    [⟨"2024-01-05", 2, "a", 1, some "AB-9", none⟩,
     ⟨"2024-01-06", 3, "b", 2, some "AB-9", none⟩,
     ⟨"2024-01-07", 4, "c", 3, some "AB-9", none⟩]
    (fun c => if c = "AB-9" then some 101 else none) none "proj"
  have h1 := h.2.2.1 ⟨"2024-01-05", 2, "a", 1, some "AB-9", none⟩
    (List.mem_cons_self _ _) "AB-9" 101 rfl rfl (by decide) (by decide)
  have h2 := h.2.2.1 ⟨"2024-01-06", 3, "b", 2, some "AB-9", none⟩
    (List.mem_cons_of_mem _ (List.mem_cons_self _ _)) "AB-9" 101 rfl rfl (by decide) (by decide)
  have h3 := h.2.2.1 ⟨"2024-01-07", 4, "c", 3, some "AB-9", none⟩
    (List.mem_cons_of_mem _ (List.mem_cons_of_mem _ (List.mem_cons_self _ _)))
    "AB-9" 101 rfl rfl (by decide) (by decide)
  refine ⟨?_, ?_⟩
  · show jsSetDedup ["AB-9", "AB-9", "AB-9"] = ["AB-9"]
    rw [jsSetDedup]
    norm_num
    rw [jsSetDedup]
  · simp only [List.map_cons, List.map_nil]
    rw [h1, h2, h3]

private theorem find?_decomp {α : Type} (p : α → Bool) :
    ∀ (l : List α) (a : α), l.find? p = some a →
      ∃ l1 l2, l = l1 ++ a :: l2 ∧ p a = true ∧ ∀ x ∈ l1, p x = false := by
  intro l
  induction l with
  | nil => intro a h; simp at h
  | cons x xs ih =>
    intro a h
    by_cases hx : p x = true
    · rw [List.find?_cons_of_pos _ hx] at h
      have hxa : x = a := Option.some_inj.mp h
      subst hxa
      exact ⟨[], xs, by simp, hx, by simp⟩
    · have hxf : p x = false := Bool.eq_false_iff.mpr hx
      rw [List.find?_cons_of_neg _ (by simp [hxf])] at h
      obtain ⟨l1, l2, hdec, hpa, hall⟩ := ih a h
      refine ⟨x :: l1, l2, by rw [hdec]; simp, hpa, ?_⟩
      intro y hy
      rcases List.mem_cons.mp hy with rfl | hy
      · exact hxf
      · exact hall y hy

/-- C6: the project-mapping resolver lowercases both the context URL
and each stored mapping URL and strips a trailing slash from each
(`normalizeMappingUrl`), returns the Redmine project id of the first
stored mapping for which either normalized string contains the other,
and returns null when no mapping matches. -/
theorem findRedmineProjectByJiraUrl_spec (mappings : List ProjectMapping) (jiraUrl : String) :
    (findRedmineProjectByJiraUrl mappings jiraUrl = none ↔
      ∀ m ∈ mappings,
        ¬(normalizeMappingUrl m.jiraUrl <:+: normalizeMappingUrl jiraUrl ∨
          normalizeMappingUrl jiraUrl <:+: normalizeMappingUrl m.jiraUrl)) ∧
    (∀ pid, findRedmineProjectByJiraUrl mappings jiraUrl = some pid →
      ∃ l1 m l2, mappings = l1 ++ m :: l2 ∧ pid = m.redmineProjectId ∧
        (normalizeMappingUrl m.jiraUrl <:+: normalizeMappingUrl jiraUrl ∨
          normalizeMappingUrl jiraUrl <:+: normalizeMappingUrl m.jiraUrl) ∧
        ∀ m2 ∈ l1,
          ¬(normalizeMappingUrl m2.jiraUrl <:+: normalizeMappingUrl jiraUrl ∨
            normalizeMappingUrl jiraUrl <:+: normalizeMappingUrl m2.jiraUrl)) := by
  constructor
  · unfold findRedmineProjectByJiraUrl
    rw [Option.map_eq_none', List.find?_eq_none]
    constructor
    · intro h m hm
      have := h m hm
      simpa using this
    · intro h m hm
      have := h m hm
      simpa using this
  · intro pid hpid
    unfold findRedmineProjectByJiraUrl at hpid
    obtain ⟨m, hfind, hproj⟩ := Option.map_eq_some'.mp hpid
    obtain ⟨l1, l2, hdec, hpm, hall⟩ := find?_decomp _ mappings m hfind
    refine ⟨l1, m, l2, hdec, hproj.symm, by simpa using hpm, ?_⟩
    intro m2 hm2
    have := hall m2 hm2
    simpa using this

/-- Witness for C6: the spec's §8 example — the stored mapping
`https://co.atlassian.net ↦ 42` matches the context URL
`https://co.atlassian.net/browse/AB-1` but not
`https://other.atlassian.net`. -/
theorem findRedmineProjectByJiraUrl_spec_witness :
    findRedmineProjectByJiraUrl [⟨"1", "https://co.atlassian.net", "42", ""⟩]
      "https://other.atlassian.net" = none ∧
    findRedmineProjectByJiraUrl [⟨"1", "https://co.atlassian.net", "42", ""⟩]
      "https://co.atlassian.net/browse/AB-1" = some "42" :=
  ⟨(findRedmineProjectByJiraUrl_spec [⟨"1", "https://co.atlassian.net", "42", ""⟩]
      "https://other.atlassian.net").1.mpr (by decide),
   by decide⟩

private theorem normalizeTempoEntries_error_eval :
    normalizeTempoEntries [⟨1001, "2024-01-05", 14400, some "Fix bug", some 42⟩]
      (fun _ => .err "HTTP 404") =
    .error "TypeError: cannot read properties of undefined (reading id)" := by
  unfold normalizeTempoEntries uniqueJiraIds
  rw [show ([⟨1001, "2024-01-05", 14400, some "Fix bug", some 42⟩] :
      List Worklog).filterMap Worklog.issueId = [42] from rfl]
  rw [jsSetDedup]
  norm_num
  rw [jsSetDedup]
  rfl

/-- C4 (code bug): when one issue-metadata lookup returns a failure
result, `normalizeTempoEntries` does not complete with a null linkage
for the affected record — its `jiraResults.forEach` loop reads
`result.issue.id` without checking `result.success`, which throws a
TypeError (modelled as `Except.error`), so the whole batch aborts.
Input: one worklog (4 hours, issue id 42) whose `getIssue` call
fails. -/
theorem normalizeTempoEntries_throws_on_failed_lookup :
    normalizeTempoEntries [⟨1001, "2024-01-05", 14400, some "Fix bug", some 42⟩]
      (fun _ => .err "HTTP 404") =
    .error "TypeError: cannot read properties of undefined (reading id)" :=
  normalizeTempoEntries_error_eval

/-- C7 (code bug): the run returns `{success:false, error}` even
though both top-level source fetches succeeded — a single failed
issue-metadata lookup makes `normalizeTempoEntries` throw (see C4),
and `compareTimeEntries`' catch surfaces it as a failed run, so run
failure is not equivalent to a source-fetch failure. -/
theorem compareTimeEntries_fails_without_fetch_failure :
    compareTimeEntries
      (.ok [⟨1001, "2024-01-05", 14400, some "Fix bug", some 42⟩]) (.ok [])
      (fun _ => .err "HTTP 404") (fun _ => none) =
    .failure "TypeError: cannot read properties of undefined (reading id)" := by
  unfold compareTimeEntries
  dsimp only
  rw [normalizeTempoEntries_error_eval]

private theorem digitChar_safe (d : Nat) (h : d < 10) :
    Char.ofNat (48 + d) ≠ ',' ∧ Char.ofNat (48 + d) ≠ '"' ∧ Char.ofNat (48 + d) ≠ '\n' := by
  interval_cases d <;> exact (by decide)

private theorem natDigits_safe :
    ∀ n, ∀ c ∈ natDigits n, c ≠ ',' ∧ c ≠ '"' ∧ c ≠ '\n' := by
  intro n
  induction n using Nat.strong_induction_on with
  | _ n ih =>
    intro c hc
    rw [natDigits] at hc
    by_cases h : n < 10
    · rw [dif_pos h] at hc
      rcases List.mem_singleton.mp hc with rfl
      exact digitChar_safe n h
    · rw [dif_neg h] at hc
      rcases List.mem_append.mp hc with hc1 | hc2
      · exact ih (n / 10) (Nat.div_lt_self (by omega) (by omega)) c hc1
      · rcases List.mem_singleton.mp hc2 with rfl
        exact digitChar_safe (n % 10) (Nat.mod_lt _ (by omega))

private theorem pad2_safe (m : Nat) :
    ∀ c ∈ pad2 m, c ≠ ',' ∧ c ≠ '"' ∧ c ≠ '\n' := by
  intro c hc
  unfold pad2 at hc
  by_cases h : m < 10
  · rw [if_pos h] at hc
    rcases List.mem_cons.mp hc with rfl | hc2
    · exact (by decide)
    · exact natDigits_safe m c hc2
  · rw [if_neg h] at hc
    exact natDigits_safe m c hc

private theorem toFixed2_safe (q : ℚ) :
    ∀ c ∈ (toFixed2 q).data, c ≠ ',' ∧ c ≠ '"' ∧ c ≠ '\n' := by
  intro c hc
  unfold toFixed2 at hc
  by_cases h : ⌊q * 100 + 1/2⌋ < 0
  · rw [if_pos h] at hc
    simp only [String.data] at hc
    rcases List.mem_cons.mp hc with rfl | hc2
    · exact (by decide)
    · rcases List.mem_append.mp hc2 with hc3 | hc4
      · exact natDigits_safe _ c hc3
      · rcases List.mem_cons.mp hc4 with rfl | hc5
        · exact (by decide)
        · exact pad2_safe _ c hc5
  · rw [if_neg h] at hc
    simp only [String.data] at hc
    rcases List.mem_append.mp hc with hc3 | hc4
    · exact natDigits_safe _ c hc3
    · rcases List.mem_cons.mp hc4 with rfl | hc5
      · exact (by decide)
      · exact pad2_safe _ c hc5

private theorem renderOptNat_safe (o : Option Nat) :
    ∀ c ∈ renderOptNat o, c ≠ ',' ∧ c ≠ '"' ∧ c ≠ '\n' := by
  intro c hc
  cases o with
  | none => simp [renderOptNat] at hc
  | some n => exact natDigits_safe n c hc

private theorem parseQuoted_escape :
    ∀ (d : List Char) (rest : List Char), (∀ ch, rest.head? = some ch → ch ≠ '"') →
      (parseQuoted (escapeQuotes d ++ '"' :: rest)).val = (d, rest) := by
  intro d
  induction d with
  | nil =>
    intro rest hrest
    rw [show escapeQuotes [] = [] from rfl, List.nil_append]
    match rest, hrest with
    | [], _ => rfl
    | r :: rs, hrest =>
      have hr : r ≠ '"' := hrest r rfl
      rw [parseQuoted.eq_def]
      try dsimp only
      rw [if_pos rfl]
      try dsimp only
      rw [if_neg hr]
  | cons c d2 ih =>
    intro rest hrest
    by_cases hcq : c = '"'
    · subst hcq
      rw [show escapeQuotes ('"' :: d2) ++ '"' :: rest =
        '"' :: '"' :: (escapeQuotes d2 ++ '"' :: rest) from by
          rw [show escapeQuotes ('"' :: d2) = '"' :: '"' :: escapeQuotes d2 from rfl]
          simp]
      rw [parseQuoted.eq_def]
      try dsimp only
      rw [if_pos rfl]
      try dsimp only
      rw [if_pos rfl]
      try dsimp only
      rw [ih rest hrest]
    · rw [show escapeQuotes (c :: d2) ++ '"' :: rest =
        c :: (escapeQuotes d2 ++ '"' :: rest) from by
          rw [escapeQuotes.eq_def]
          split <;> simp_all]
      rw [parseQuoted.eq_def]
      try dsimp only
      rw [if_neg hcq]
      try dsimp only
      rw [ih rest hrest]

private theorem parseField_quoted (d : List Char) (rest : List Char)
    (hrest : ∀ ch, rest.head? = some ch → ch ≠ '"') :
    (parseField ('"' :: (escapeQuotes d ++ '"' :: rest))).val = (⟨d⟩, rest) := by
  unfold parseField
  rw [if_pos (show ('"' :: (escapeQuotes d ++ '"' :: rest)).head? = some '"' from rfl)]
  try dsimp only
  rw [show ('"' :: (escapeQuotes d ++ '"' :: rest)).tail = escapeQuotes d ++ '"' :: rest
    from rfl]
  rw [parseQuoted_escape d rest hrest]

private theorem parseField_unquoted (l : List Char) (rest : List Char)
    (hl : ∀ c ∈ l, c ≠ ',' ∧ c ≠ '"' ∧ c ≠ '\n')
    (hrest : rest = [] ∨ rest.head? = some ',' ∨ rest.head? = some '\n') :
    (parseField (l ++ rest)).val = (⟨l⟩, rest) := by
  have hhead : ¬ (l ++ rest).head? = some '"' := by
    cases l with
    | nil =>
      simp only [List.nil_append]
      rcases hrest with rfl | h | h
      · simp
      · rw [h]; simp
      · rw [h]; simp
    | cons c l2 =>
      simp only [List.cons_append, List.head?_cons]
      have hc := (hl c (List.mem_cons_self _ _)).2.1
      simp [hc]
  have hp : ∀ c ∈ l, (fun c => decide (c ≠ ',') && decide (c ≠ '\n')) c = true := by
    intro c hc
    have h := hl c hc
    simp [h.1, h.2.2]
  have htw : rest.takeWhile (fun c => decide (c ≠ ',') && decide (c ≠ '\n')) = [] := by
    rcases hrest with rfl | h | h
    · rfl
    · cases rest with
      | nil => rfl
      | cons r rs =>
        have hr : r = ',' := by simpa using h
        subst hr
        simp [List.takeWhile_cons]
    · cases rest with
      | nil => rfl
      | cons r rs =>
        have hr : r = '\n' := by simpa using h
        subst hr
        simp [List.takeWhile_cons]
  have hdw : rest.dropWhile (fun c => decide (c ≠ ',') && decide (c ≠ '\n')) = rest := by
    rcases hrest with rfl | h | h
    · rfl
    · cases rest with
      | nil => rfl
      | cons r rs =>
        have hr : r = ',' := by simpa using h
        subst hr
        simp [List.dropWhile_cons]
    · cases rest with
      | nil => rfl
      | cons r rs =>
        have hr : r = '\n' := by simpa using h
        subst hr
        simp [List.dropWhile_cons]
  unfold parseField
  rw [if_neg hhead]
  try dsimp only
  rw [List.takeWhile_append_of_pos hp, List.dropWhile_append_of_pos hp, htw, hdw,
    List.append_nil]

private theorem parseRows_eq_comma {cs : List Char} {f : String} {r : List Char}
    (h : (parseField cs).val = (f, ',' :: r)) :
    parseRows cs = (match parseRows r with
      | [] => [[f]]
      | row :: rs => (f :: row) :: rs) := by
  rw [parseRows, h]
  simp

private theorem parseRows_eq_newline {cs : List Char} {f : String} {r : List Char}
    (h : (parseField cs).val = (f, '\n' :: r)) :
    parseRows cs = [f] :: parseRows r := by
  rw [parseRows, h]
  simp

private theorem parseRows_eq_end {cs : List Char} {f : String}
    (h : (parseField cs).val = (f, [])) :
    parseRows cs = [[f]] := by
  rw [parseRows, h]
  simp

private theorem parseRows_unq_comma_cons (l : List Char)
    (hl : ∀ c ∈ l, c ≠ ',' ∧ c ≠ '"' ∧ c ≠ '\n')
    {r : List Char} {row : List String} {rs : List (List String)}
    (h : parseRows r = row :: rs) :
    parseRows (l ++ ',' :: r) = ((⟨l⟩ : String) :: row) :: rs := by
  rw [parseRows_eq_comma (parseField_unquoted l (',' :: r) hl (Or.inr (Or.inl rfl)))]
  rw [h]

private theorem parseRows_unq_newline (l : List Char)
    (hl : ∀ c ∈ l, c ≠ ',' ∧ c ≠ '"' ∧ c ≠ '\n') (r : List Char) :
    parseRows (l ++ '\n' :: r) = [(⟨l⟩ : String)] :: parseRows r :=
  parseRows_eq_newline (parseField_unquoted l ('\n' :: r) hl (Or.inr (Or.inr rfl)))

private theorem parseRows_unq_end (l : List Char)
    (hl : ∀ c ∈ l, c ≠ ',' ∧ c ≠ '"' ∧ c ≠ '\n') :
    parseRows l = [[(⟨l⟩ : String)]] := by
  have h := parseRows_eq_end (parseField_unquoted l [] hl (Or.inl rfl))
  rwa [List.append_nil] at h

private theorem parseRows_quoted_comma_cons (d : List Char)
    {r : List Char} {row : List String} {rs : List (List String)}
    (h : parseRows r = row :: rs) :
    parseRows ('"' :: (escapeQuotes d ++ '"' :: (',' :: r))) =
      ((⟨d⟩ : String) :: row) :: rs := by
  rw [parseRows_eq_comma (parseField_quoted d (',' :: r)
    (fun ch hch => by
      rw [List.head?_cons, Option.some_inj] at hch
      rw [← hch]
      decide))]
  rw [h]

private theorem parseRows_row_newline (e : MissingEntry) (rest : List Char)
    (hd : ∀ c ∈ e.date.data, c ≠ ',' ∧ c ≠ '"' ∧ c ≠ '\n')
    (hj : ∀ c ∈ (renderOptString e.jiraTask).data, c ≠ ',' ∧ c ≠ '"' ∧ c ≠ '\n') :
    parseRows (joinSep ',' (csvRowFields e) ++ '\n' :: rest) =
      rowStrings e :: parseRows rest := by
  have h5 : parseRows (renderOptNat e.redmineTask ++ '\n' :: rest) =
      [(⟨renderOptNat e.redmineTask⟩ : String)] :: parseRows rest :=
    parseRows_unq_newline _ (renderOptNat_safe _) rest
  have h4 := parseRows_unq_comma_cons (renderOptString e.jiraTask).data hj h5
  have h3 := parseRows_quoted_comma_cons e.description.data h4
  have h2 := parseRows_unq_comma_cons (toFixed2 e.hours).data (toFixed2_safe e.hours) h3
  have h1 := parseRows_unq_comma_cons e.date.data hd h2
  have hexp : joinSep ',' (csvRowFields e) ++ '\n' :: rest =
      e.date.data ++ ',' :: ((toFixed2 e.hours).data ++ ',' ::
        ('"' :: (escapeQuotes e.description.data ++ '"' ::
          (',' :: ((renderOptString e.jiraTask).data ++ ',' ::
            (renderOptNat e.redmineTask ++ '\n' :: rest)))))) := by
    simp [joinSep, csvRowFields, List.append_assoc]
  rw [hexp]
  exact h1

private theorem parseRows_row_end (e : MissingEntry)
    (hd : ∀ c ∈ e.date.data, c ≠ ',' ∧ c ≠ '"' ∧ c ≠ '\n')
    (hj : ∀ c ∈ (renderOptString e.jiraTask).data, c ≠ ',' ∧ c ≠ '"' ∧ c ≠ '\n') :
    parseRows (joinSep ',' (csvRowFields e)) = [rowStrings e] := by
  have h5 : parseRows (renderOptNat e.redmineTask) =
      [[(⟨renderOptNat e.redmineTask⟩ : String)]] :=
    parseRows_unq_end _ (renderOptNat_safe _)
  have h4 := parseRows_unq_comma_cons (renderOptString e.jiraTask).data hj h5
  have h3 := parseRows_quoted_comma_cons e.description.data h4
  have h2 := parseRows_unq_comma_cons (toFixed2 e.hours).data (toFixed2_safe e.hours) h3
  have h1 := parseRows_unq_comma_cons e.date.data hd h2
  have hexp : joinSep ',' (csvRowFields e) =
      e.date.data ++ ',' :: ((toFixed2 e.hours).data ++ ',' ::
        ('"' :: (escapeQuotes e.description.data ++ '"' ::
          (',' :: ((renderOptString e.jiraTask).data ++ ',' ::
            renderOptNat e.redmineTask))))) := by
    simp [joinSep, csvRowFields, List.append_assoc]
  rw [hexp]
  exact h1

private theorem parseRows_header_newline (rest : List Char) :
    parseRows (joinSep ',' csvHeaders ++ '\n' :: rest) =
      headerStrings :: parseRows rest := by
  have h5 : parseRows ("Redmine задача".data ++ '\n' :: rest) =
      [(⟨"Redmine задача".data⟩ : String)] :: parseRows rest :=
    parseRows_unq_newline _ (by decide) rest
  have h4 := parseRows_unq_comma_cons "Jira задача".data (by decide) h5
  have h3 := parseRows_unq_comma_cons "Описание".data (by decide) h4
  have h2 := parseRows_unq_comma_cons "Время".data (by decide) h3
  have h1 := parseRows_unq_comma_cons "Дата".data (by decide) h2
  have hexp : joinSep ',' csvHeaders ++ '\n' :: rest =
      "Дата".data ++ ',' :: ("Время".data ++ ',' :: ("Описание".data ++ ',' ::
        ("Jira задача".data ++ ',' :: ("Redmine задача".data ++ '\n' :: rest)))) := by
    simp [joinSep, csvHeaders, List.append_assoc]
  rw [hexp]
  exact h1

private theorem parseRows_header_end :
    parseRows (joinSep ',' csvHeaders) = [headerStrings] := by
  have h5 : parseRows ("Redmine задача".data) =
      [[(⟨"Redmine задача".data⟩ : String)]] :=
    parseRows_unq_end _ (by decide)
  have h4 := parseRows_unq_comma_cons "Jira задача".data (by decide) h5
  have h3 := parseRows_unq_comma_cons "Описание".data (by decide) h4
  have h2 := parseRows_unq_comma_cons "Время".data (by decide) h3
  have h1 := parseRows_unq_comma_cons "Дата".data (by decide) h2
  have hexp : joinSep ',' csvHeaders =
      "Дата".data ++ ',' :: ("Время".data ++ ',' :: ("Описание".data ++ ',' ::
        ("Jira задача".data ++ ',' :: "Redmine задача".data))) := by
    simp [joinSep, csvHeaders, List.append_assoc]
  rw [hexp]
  exact h1

private theorem parseRows_dataRows :
    ∀ (entries : List MissingEntry),
      (∀ e ∈ entries, csvSafe e.date ∧ csvSafe (renderOptString e.jiraTask)) →
      entries ≠ [] →
      parseRows (joinSep '\n' ((entries.map csvRowFields).map (joinSep ','))) =
        entries.map rowStrings := by
  intro entries
  induction entries with
  | nil => intro _ h; exact absurd rfl h
  | cons e tl ih =>
    intro hsafe _
    have he := hsafe e (List.mem_cons_self _ _)
    cases tl with
    | nil =>
      simp only [List.map_cons, List.map_nil]
      rw [show joinSep '\n' [joinSep ',' (csvRowFields e)] = joinSep ',' (csvRowFields e)
        from rfl]
      rw [parseRows_row_end e he.1 he.2]
    | cons e2 tl2 =>
      simp only [List.map_cons]
      rw [show joinSep '\n' (joinSep ',' (csvRowFields e) :: joinSep ',' (csvRowFields e2) ::
          (tl2.map csvRowFields).map (joinSep ',')) =
        joinSep ',' (csvRowFields e) ++ '\n' :: joinSep '\n' (joinSep ',' (csvRowFields e2) ::
          (tl2.map csvRowFields).map (joinSep ',')) from rfl]
      rw [parseRows_row_newline e _ he.1 he.2]
      have ih2 := ih (fun x hx => hsafe x (List.mem_cons_of_mem _ hx)) (by simp)
      simp only [List.map_cons] at ih2
      rw [ih2]

/-- C8: exporting missing entries to CSV (columns date, hours with two
decimals, double-quoted description with embedded quotes doubled, Jira
task, Redmine task; comma separated, rows newline separated) and
parsing the CSV back recovers every entry's row — in particular its
date, its hours rendered by `toFixed2`, and its description exactly —
in order, for dates and issue codes free of separator characters (the
data model's `YYYY-MM-DD` dates and `ABC-123` codes always are; the
description is arbitrary). -/
theorem exportMissingEntries_parse_roundTrip (entries : List MissingEntry)
    (hsafe : ∀ e ∈ entries, csvSafe e.date ∧ csvSafe (renderOptString e.jiraTask)) :
    (parseRows (exportMissingEntriesCsv entries)).drop 1 = entries.map rowStrings := by
  unfold exportMissingEntriesCsv
  cases entries with
  | nil =>
    simp only [List.map_nil]
    rw [show (([csvHeaders] : List (List (List Char))).map (joinSep ',')) =
      [joinSep ',' csvHeaders] from rfl]
    rw [show joinSep '\n' [joinSep ',' csvHeaders] = joinSep ',' csvHeaders from rfl]
    rw [parseRows_header_end]
    rfl
  | cons e tl =>
    simp only [List.map_cons]
    rw [show joinSep '\n' (joinSep ',' csvHeaders :: joinSep ',' (csvRowFields e) ::
        (tl.map csvRowFields).map (joinSep ',')) =
      joinSep ',' csvHeaders ++ '\n' :: joinSep '\n' (joinSep ',' (csvRowFields e) ::
        (tl.map csvRowFields).map (joinSep ',')) from rfl]
    rw [parseRows_header_newline]
    have hdr := parseRows_dataRows (e :: tl) hsafe (by simp)
    simp only [List.map_cons] at hdr
    rw [hdr]
    rfl

/-- Witness for C8: one entry whose description contains doubled-quote
material and a comma; the parsed second row recovers date, `4.00` and
the description exactly. -/
theorem exportMissingEntries_parse_roundTrip_witness :
    (parseRows (exportMissingEntriesCsv
      [⟨"2024-01-05", 4, "Fix \"the\" bug, quickly", 1, some "AB-1", some 12⟩])).drop 1 =
    [["2024-01-05", "4.00", "Fix \"the\" bug, quickly", "AB-1", "12"]] := by
  rw [exportMissingEntries_parse_roundTrip
    [⟨"2024-01-05", 4, "Fix \"the\" bug, quickly", 1, some "AB-1", some 12⟩]
    (by
      intro e he
      rw [List.mem_singleton] at he
      subst he
      exact ⟨by decide, by decide⟩)]
  have hfix : toFixed2 (4 : ℚ) = "4.00" := by
    unfold toFixed2
    rw [show ⌊(4 : ℚ) * 100 + 1/2⌋ = (400 : ℤ) from by norm_num]
    rw [if_neg (by norm_num)]
    rw [show ((400 : ℤ).toNat / 100) = 4 from rfl]
    rw [show ((400 : ℤ).toNat % 100) = 0 from rfl]
    rw [show natDigits 4 = ['4'] from by rw [natDigits]; decide]
    rw [show pad2 0 = ['0', '0'] from by
      unfold pad2
      rw [if_pos (by norm_num)]
      rw [show natDigits 0 = ['0'] from by rw [natDigits]; decide]]
    decide
  have h12 : (⟨renderOptNat (some 12)⟩ : String) = "12" := by
    rw [show renderOptNat (some 12) = natDigits 12 from rfl]
    rw [show natDigits 12 = natDigits 1 ++ ['2'] from by
      rw [natDigits]
      rw [dif_neg (by norm_num)]]
    rw [show natDigits 1 = ['1'] from by rw [natDigits]; decide]
    decide
  simp only [List.map_cons, List.map_nil, rowStrings]
  rw [hfix, h12]
  rfl

end TimesExt
